import Mathlib

/-!
Verification of the natural-language specification of
`feature_creation_scripts/arctic_ocean_regions/arctic_ocean_regions.py`
against the script's code.

The script builds Arctic Ocean region features by combining, clipping and
differencing polygon feature collections.  We embed the script shallowly:

* coordinates are exact rationals (`Point := ℚ × ℚ`);
* a feature's geometry is either an explicit GeoJSON-style coordinate ring
  (for `make_rectangle` and the manually specified polygons) or an abstract
  region of the plane (`Region := Set Point`) for the geometric algebra;
* the feature-collection operations `merge`, `combine` and `difference`
  belong to the `geometric_features` library, whose code is not part of the
  script; they are modelled from the specification's description of them;
* calls into external libraries (the contour tracer, the shapely polygon
  constructor, the stereographic reprojection, the coordinate rounding) are
  abstracted as explicit function parameters of the embedded script.
-/

set_option autoImplicit false

/-- A coordinate pair (longitude/latitude, or stereographic x/y). -/
abbrev Point : Type := ℚ × ℚ

/-- An abstract region of the plane, used for the set-algebra semantics of
the feature-collection operations. -/
abbrev Region : Type := Set Point

/-- A GeoJSON feature with geometry of type `G`.  The `properties` dict of
the script's features always holds `name`, `author`, `object` and
`component`; `tags` is present on some features only, hence `Option`. -/
structure Feature (G : Type) where
  name : String
  author : String
  object : String
  component : String
  tags : Option String
  geometry : G
deriving Repr, DecidableEq

/-- An ordered sequence of features (the `FeatureCollection` of the
`geometric_features` library). -/
structure FeatureCollection (G : Type) where
  features : List (Feature G)
deriving Repr, DecidableEq

/-- A GeoJSON polygon geometry as the script writes it literally: a `type`
tag and a list of coordinate rings. -/
structure PolyGeometry where
  type : String
  coordinates : List (List Point)
deriving Repr, DecidableEq

/-- Modelled from the spec: `merge(a, b)` produces a collection whose
feature sequence is `a`'s features followed by `b`'s features (the library
method `FeatureCollection.merge` is not part of the script's source). -/
def FeatureCollection.merge {G : Type} (a b : FeatureCollection G) :
    FeatureCollection G :=
  ⟨a.features ++ b.features⟩

/-- Modelled from the spec: the union of all geometries of a collection,
used by `combine` and as the subtrahend of `difference`. -/
def FeatureCollection.unionGeometry (fc : FeatureCollection Region) : Region :=
  fc.features.foldr (fun f s => f.geometry ∪ s) ∅

/-- Modelled from the spec: `difference(a, b)` subtracts the union of `b`'s
geometries from each of `a`'s feature geometries, feature by feature,
preserving `a`'s feature identities (the library method
`FeatureCollection.difference` is not part of the script's source). -/
def FeatureCollection.difference (a b : FeatureCollection Region) :
    FeatureCollection Region :=
  ⟨a.features.map fun f => { f with geometry := f.geometry \ b.unionGeometry }⟩

/-- Modelled from the spec: `combine(collection, newName)` unions every
feature's geometry into a single feature with the given name; the other
properties are set explicitly by the caller afterwards, so the model leaves
them blank (the library method `FeatureCollection.combine` is not part of
the script's source). -/
def FeatureCollection.combine (fc : FeatureCollection Region)
    (newName : String) : FeatureCollection Region :=
  ⟨[⟨newName, "", "region", "ocean", none, fc.unionGeometry⟩]⟩

/-- Modelled from the spec: `read(component, object, names)` fetches a named
feature from the external store; the store's contents are a parameter of the
model, the requested name becomes the feature's name. -/
def readRegion (name : String) (r : Region) : FeatureCollection Region :=
  ⟨[⟨name, "", "region", "ocean", none, r⟩]⟩

/-- Overwrite the name of the first feature, as the script's
`props = fc.features[0]['properties']; props['name'] = ...` does. -/
def FeatureCollection.setHeadName {G : Type} (fc : FeatureCollection G)
    (n : String) : FeatureCollection G :=
  match fc.features with
  | [] => fc
  | f :: rest => ⟨{ f with name := n } :: rest⟩

/-- Overwrite the tags of the first feature (`props['tags'] = ...`). -/
def FeatureCollection.setHeadTags {G : Type} (fc : FeatureCollection G)
    (t : String) : FeatureCollection G :=
  match fc.features with
  | [] => fc
  | f :: rest => ⟨{ f with tags := some t } :: rest⟩

/-- Overwrite the author of the first feature (`props['author'] = ...`). -/
def FeatureCollection.setHeadAuthor {G : Type} (fc : FeatureCollection G)
    (a : String) : FeatureCollection G :=
  match fc.features with
  | [] => fc
  | f :: rest => ⟨{ f with author := a } :: rest⟩

/-- `make_rectangle` from the script (lines 98-115): a single-feature
collection whose literal GeoJSON geometry is the closed five-point ring
through the four corners, with no validation of the bounds. -/
def make_rectangle (lon0 lon1 lat0 lat1 : ℚ)
    (name author tags : String) : FeatureCollection PolyGeometry :=
  ⟨[⟨name, author, "region", "ocean", some tags,
     ⟨"Polygon",
      [[(lon0, lat0), (lon1, lat0), (lon1, lat1), (lon0, lat1),
        (lon0, lat0)]]⟩⟩]⟩

/-- Interpret the literal GeoJSON geometries of a collection as regions via
an external ring-interpretation function (shapely's polygon semantics),
as happens when a GeoJSON-built collection enters a boolean operation. -/
def toRegionFC (ringRegion : List (List Point) → Region)
    (fc : FeatureCollection PolyGeometry) : FeatureCollection Region :=
  ⟨fc.features.map fun f => { f with geometry := ringRegion f.geometry.coordinates }⟩

/-- Model of Python's `str` on the float values the script formats into
feature names: an integral float such as `-300.0` prints with a trailing
`.0`; non-integral rationals fall back to their rational rendering. -/
def floatRepr (q : ℚ) : String :=
  if q.den = 1 then toString q.num ++ ".0" else toString q

/-- Scan of `numpy.argmax`: carries the best value, its index, and the index
of the next element; a later element replaces the best only when strictly
greater, so the first occurrence of the maximum wins. -/
def argmaxGo (best bestIdx idx : ℕ) : List ℕ → ℕ
  | [] => bestIdx
  | v :: rest =>
      if best < v then argmaxGo v idx (idx + 1) rest
      else argmaxGo best bestIdx (idx + 1) rest

/-- Models the documented behavior of `numpy.argmax` on a list: the index of
the first occurrence of the maximum, and `none` on an empty list (where
`numpy.argmax` raises `ValueError`, aborting the script). -/
def argmax : List ℕ → Option ℕ
  | [] => none
  | v :: rest => some (argmaxGo v 0 1 rest)

/-- `get_longest_contour` from the script (lines 20-95), embedded after the
external effects: `paths` is the list of contour paths returned by the
tracer on the edge-zeroed grid (each path a list of stereographic vertices),
and `geomOf` abstracts lines 56-85 (building the shapely polygon from the
chosen path, subtracting the wedge, reprojecting to lon/lat and rounding the
coordinates).  The script picks the path with the most vertices via
`numpy.argmax` and wraps the resulting geometry as a single feature. -/
def get_longest_contour (G : Type) (contourValue : ℚ) (author : String)
    (paths : List (List Point)) (geomOf : List Point → G) :
    Option (FeatureCollection G) :=
  match argmax (paths.map List.length) with
  | none => none
  | some i =>
      some ⟨[⟨"Contour " ++ floatRepr contourValue, author, "region", "ocean",
              none, geomOf (paths.getD i [])⟩]⟩

/-- C3: for every input, including inputs with `lon0 ≥ lon1` or
`lat0 ≥ lat1`, `make_rectangle` returns a collection of exactly one feature
whose single polygon ring is exactly the five pairs
`(lon0,lat0), (lon1,lat0), (lon1,lat1), (lon0,lat1), (lon0,lat0)`, with no
validation or reordering of the bounds. -/
theorem make_rectangle_ring (lon0 lon1 lat0 lat1 : ℚ)
    (name author tags : String) :
    (make_rectangle lon0 lon1 lat0 lat1 name author tags).features =
      [⟨name, author, "region", "ocean", some tags,
        ⟨"Polygon",
         [[(lon0, lat0), (lon1, lat0), (lon1, lat1), (lon0, lat1),
           (lon0, lat0)]]⟩⟩] ∧
    (make_rectangle lon0 lon1 lat0 lat1 name author tags).features.map
        (fun f => f.geometry.coordinates.map List.length) = [[5]] := by
  exact ⟨rfl, rfl⟩

/-- C5: when the contour tracer yields zero paths, `get_longest_contour`
errors out (modelled as `none`): `numpy.argmax` over the empty list of path
lengths aborts the script, and no collection is returned. -/
theorem get_longest_contour_empty (G : Type) (contourValue : ℚ)
    (author : String) (geomOf : List Point → G) :
    get_longest_contour G contourValue author [] geomOf = none := rfl

/-- Invariant of the `argmaxGo` scan: either no element beats the carried
best and the carried index is returned, or the returned index points (as an
offset from `idx`) at the first element that strictly beats the best and is
maximal in the remaining list. -/
theorem argmaxGo_spec (l : List ℕ) : ∀ best bestIdx idx : ℕ,
    (argmaxGo best bestIdx idx l = bestIdx ∧
      ∀ j, j < l.length → l.getD j 0 ≤ best) ∨
    (∃ k, k < l.length ∧ argmaxGo best bestIdx idx l = idx + k ∧
      best < l.getD k 0 ∧
      (∀ j, j < l.length → l.getD j 0 ≤ l.getD k 0) ∧
      (∀ j, j < k → l.getD j 0 < l.getD k 0)) := by
  induction l with
  | nil =>
      intro best bestIdx idx
      left
      exact ⟨rfl, fun j hj => absurd hj (by simp)⟩
  | cons v rest ih =>
      intro best bestIdx idx
      by_cases h : best < v
      · rcases ih v idx (idx + 1) with ⟨he, hb⟩ | ⟨k, hk, he, hgt, hub, hst⟩
        · right
          refine ⟨0, by simp, ?_, by simpa using h, ?_, ?_⟩
          · simpa [argmaxGo, h] using he
          · intro j hj
            cases j with
            | zero => simp
            | succ j' =>
                simpa using hb j' (by simpa using hj)
          · intro j hj
            exact absurd hj (Nat.not_lt_zero j)
        · right
          refine ⟨k + 1, by simpa using Nat.succ_lt_succ hk, ?_, ?_, ?_, ?_⟩
          · have : argmaxGo best bestIdx idx (v :: rest) =
                argmaxGo v idx (idx + 1) rest := by
              simp [argmaxGo, h]
            omega
          · simpa using lt_trans h hgt
          · intro j hj
            cases j with
            | zero => simpa using le_of_lt hgt
            | succ j' =>
                simpa using hub j' (by simpa using hj)
          · intro j hj
            cases j with
            | zero => simpa using hgt
            | succ j' =>
                simpa using hst j' (by omega)
      · rcases ih best bestIdx (idx + 1) with ⟨he, hb⟩ | ⟨k, hk, he, hgt, hub, hst⟩
        · left
          refine ⟨by simpa [argmaxGo, h] using he, ?_⟩
          intro j hj
          cases j with
          | zero => simpa using le_of_not_lt h
          | succ j' =>
              simpa using hb j' (by simpa using hj)
        · right
          refine ⟨k + 1, by simpa using Nat.succ_lt_succ hk, ?_, ?_, ?_, ?_⟩
          · have : argmaxGo best bestIdx idx (v :: rest) =
                argmaxGo best bestIdx (idx + 1) rest := by
              simp [argmaxGo, h]
            omega
          · simpa using hgt
          · intro j hj
            cases j with
            | zero =>
                simpa using le_of_lt (lt_of_le_of_lt (le_of_not_lt h) hgt)
            | succ j' =>
                simpa using hub j' (by simpa using hj)
          · intro j hj
            cases j with
            | zero =>
                simpa using lt_of_le_of_lt (le_of_not_lt h) hgt
            | succ j' =>
                simpa using hst j' (by omega)

/-- The `argmax` model returns an in-range index of a maximal element such
that every earlier element is strictly smaller (first occurrence). -/
theorem argmax_spec (l : List ℕ) (i : ℕ) (h : argmax l = some i) :
    i < l.length ∧ (∀ j, j < l.length → l.getD j 0 ≤ l.getD i 0) ∧
    (∀ j, j < i → l.getD j 0 < l.getD i 0) := by
  cases l with
  | nil => exact absurd h (by simp [argmax])
  | cons v rest =>
      have hi : i = argmaxGo v 0 1 rest := by
        simpa [argmax] using h.symm
      rcases argmaxGo_spec rest v 0 1 with ⟨he, hb⟩ | ⟨k, hk, he, hgt, hub, hst⟩
      · have hi0 : i = 0 := by omega
        subst hi0
        refine ⟨by simp, ?_, ?_⟩
        · intro j hj
          cases j with
          | zero => simp
          | succ j' => simpa using hb j' (by simpa using hj)
        · intro j hj
          exact absurd hj (Nat.not_lt_zero j)
      · have hik : i = k + 1 := by omega
        subst hik
        refine ⟨by simpa using Nat.succ_lt_succ hk, ?_, ?_⟩
        · intro j hj
          cases j with
          | zero => simpa using le_of_lt hgt
          | succ j' => simpa using hub j' (by simpa using hj)
        · intro j hj
          cases j with
          | zero => simpa using hgt
          | succ j' => simpa using hst j' (by omega)

/-- Relates indexing into the mapped length list with indexing into the path
list (matplotlib paths measure their length by vertex count). -/
theorem getD_map_length (paths : List (List Point)) (n : ℕ) :
    (paths.map List.length).getD n 0 = (paths.getD n []).length := by
  induction paths generalizing n with
  | nil => simp
  | cons p rest ih =>
      cases n with
      | zero => simp
      | succ n' => simpa using ih n'

/-- C10: when two or more traced contour paths tie for the maximal vertex
count, `get_longest_contour` selects the first such path in the order the
tracer returned them: the selected index `i` carries a maximal vertex count
and every earlier path has strictly fewer vertices. -/
theorem get_longest_contour_first_max (G : Type) (contourValue : ℚ)
    (author : String) (paths : List (List Point)) (geomOf : List Point → G)
    (i : ℕ) (h : argmax (paths.map List.length) = some i) :
    get_longest_contour G contourValue author paths geomOf =
      some ⟨[⟨"Contour " ++ floatRepr contourValue, author, "region", "ocean",
              none, geomOf (paths.getD i [])⟩]⟩ ∧
    (∀ j, j < paths.length →
      (paths.getD j []).length ≤ (paths.getD i []).length) ∧
    (∀ j, j < i → (paths.getD j []).length < (paths.getD i []).length) := by
  obtain ⟨hlen, hub, hst⟩ := argmax_spec (paths.map List.length) i h
  refine ⟨?_, ?_, ?_⟩
  · simp [get_longest_contour, h]
  · intro j hj
    have hle := hub j (by simpa using hj)
    rw [getD_map_length, getD_map_length] at hle
    exact hle
  · intro j hj
    have hlt := hst j hj
    rw [getD_map_length, getD_map_length] at hlt
    exact hlt

/-- Witness for C10 at a concrete tie: paths with vertex counts `[1, 2, 2]`;
the scan picks index 1, the first of the two maximal paths. -/
theorem get_longest_contour_first_max_witness :
    argmax (([[((0 : ℚ), (0 : ℚ))], [(0, 0), (1, 1)],
        [(2, 2), (3, 3)]] : List (List Point)).map List.length) = some 1 ∧
    get_longest_contour Unit (-300) "A"
        [[(0, 0)], [(0, 0), (1, 1)], [(2, 2), (3, 3)]] (fun _ => ()) =
      some ⟨[⟨"Contour -300.0", "A", "region", "ocean", none, ()⟩]⟩ := by
  refine ⟨by decide, ?_⟩
  exact (get_longest_contour_first_max Unit (-300) "A"
    [[(0, 0)], [(0, 0), (1, 1)], [(2, 2), (3, 3)]] (fun _ => ()) 1
    (by decide)).1.trans (by decide)

/-- C4: whenever `get_longest_contour` returns a collection, that collection
holds exactly one feature, named `Contour <value>` with the depth value
formatted into the name, with the given author, object `region`, component
`ocean` (and no tags entry). -/
theorem get_longest_contour_props (G : Type) (contourValue : ℚ)
    (author : String) (paths : List (List Point)) (geomOf : List Point → G)
    (fc : FeatureCollection G)
    (h : get_longest_contour G contourValue author paths geomOf = some fc) :
    fc.features.map
        (fun f => (f.name, f.author, f.object, f.component, f.tags)) =
      [("Contour " ++ floatRepr contourValue, author, "region", "ocean",
        none)] := by
  unfold get_longest_contour at h
  cases e : argmax (paths.map List.length) with
  | none => rw [e] at h; exact absurd h (by simp)
  | some i =>
      rw [e] at h
      have hfc := Option.some.inj h
      subst hfc
      simp

/-- Witness for C4 at a concrete input: depth `-300`, author `M`, one path;
the returned feature's properties are exactly as claimed. -/
theorem get_longest_contour_props_witness :
    get_longest_contour Unit (-300) "M" [[((0 : ℚ), (0 : ℚ))]] (fun _ => ()) =
      some ⟨[⟨"Contour -300.0", "M", "region", "ocean", none, ()⟩]⟩ ∧
    (FeatureCollection.mk
        [⟨"Contour -300.0", "M", "region", "ocean", none, ()⟩]).features.map
        (fun f => (f.name, f.author, f.object, f.component, f.tags)) =
      [("Contour -300.0", "M", "region", "ocean", none)] := by
  refine ⟨by decide, ?_⟩
  exact (get_longest_contour_props Unit (-300) "M" [[(0, 0)]] (fun _ => ())
    ⟨[⟨"Contour -300.0", "M", "region", "ocean", none, ()⟩]⟩
    (by decide)).trans (by decide)

/-- Membership in the union of a collection's geometries. -/
theorem mem_unionGeometry (fc : FeatureCollection Region) (p : Point) :
    p ∈ fc.unionGeometry ↔ ∃ f ∈ fc.features, p ∈ f.geometry := by
  obtain ⟨l⟩ := fc
  induction l with
  | nil => simp [FeatureCollection.unionGeometry]
  | cons f rest ih =>
      simp only [FeatureCollection.unionGeometry] at ih ⊢
      simp only [List.foldr_cons, Set.mem_union, List.mem_cons]
      rw [ih]
      constructor
      · rintro (hp | ⟨g, hg, hpg⟩)
        · exact ⟨f, Or.inl rfl, hp⟩
        · exact ⟨g, Or.inr hg, hpg⟩
      · rintro ⟨g, hgm, hpg⟩
        rcases hgm with hgf | hg
        · subst hgf; exact Or.inl hpg
        · exact Or.inr ⟨g, hg, hpg⟩

/-- The geometry of the union of a differenced collection stays inside the
union of the original collection. -/
theorem unionGeometry_difference_subset (a b : FeatureCollection Region) :
    (a.difference b).unionGeometry ⊆ a.unionGeometry := by
  intro p hp
  rw [mem_unionGeometry] at hp ⊢
  obtain ⟨f, hf, hpf⟩ := hp
  simp only [FeatureCollection.difference, List.mem_map] at hf
  obtain ⟨g, hg, rfl⟩ := hf
  exact ⟨g, hg, hpf.1⟩

/-- A differenced collection has no overlap with the subtracted one. -/
theorem unionGeometry_difference_inter (a b : FeatureCollection Region) :
    (a.difference b).unionGeometry ∩ b.unionGeometry = ∅ := by
  ext p
  simp only [Set.mem_inter_iff, Set.mem_empty_iff_false, iff_false, not_and]
  intro hp hpb
  rw [mem_unionGeometry] at hp
  obtain ⟨f, hf, hpf⟩ := hp
  simp only [FeatureCollection.difference, List.mem_map] at hf
  obtain ⟨g, hg, rfl⟩ := hf
  exact hpf.2 hpb

/-- Disjointness from a superset transfers to the subset. -/
theorem inter_empty_of_subset {s t u : Region} (h : s ⊆ t)
    (he : t ∩ u = ∅) : s ∩ u = ∅ := by
  ext p
  simp only [Set.mem_inter_iff, Set.mem_empty_iff_false, iff_false, not_and]
  intro hs hu
  have hpt : p ∈ t ∩ u := ⟨h hs, hu⟩
  rw [he] at hpt
  exact hpt

/-- C1: the double-difference idiom used for the Beaufort Gyre,
`r.difference(r.difference(c))`, replaces each of `r`'s feature geometries
with its intersection with `c`'s enclosed area, so the resulting geometry
equals the intersection of `r`'s geometry with `c`'s geometry. -/
theorem double_difference_is_intersection (r c : FeatureCollection Region) :
    (r.difference (r.difference c)).features =
      r.features.map
        (fun f => { f with geometry := f.geometry ∩ c.unionGeometry }) ∧
    (r.difference (r.difference c)).unionGeometry =
      r.unionGeometry ∩ c.unionGeometry := by
  have key : ∀ f ∈ r.features,
      f.geometry \ (r.difference c).unionGeometry =
        f.geometry ∩ c.unionGeometry := by
    intro f hf
    ext p
    constructor
    · rintro ⟨hpg, hn⟩
      refine ⟨hpg, ?_⟩
      by_contra hpc
      apply hn
      rw [mem_unionGeometry]
      refine ⟨{ f with geometry := f.geometry \ c.unionGeometry }, ?_, ?_⟩
      · simp only [FeatureCollection.difference, List.mem_map]
        exact ⟨f, hf, rfl⟩
      · exact ⟨hpg, hpc⟩
    · rintro ⟨hpg, hpc⟩
      refine ⟨hpg, ?_⟩
      intro hmem
      rw [mem_unionGeometry] at hmem
      obtain ⟨f1, hf1, hpf1⟩ := hmem
      simp only [FeatureCollection.difference, List.mem_map] at hf1
      obtain ⟨g, hg, rfl⟩ := hf1
      exact hpf1.2 hpc
  have hfeat : (r.difference (r.difference c)).features =
      r.features.map
        (fun f => { f with geometry := f.geometry ∩ c.unionGeometry }) := by
    have h0 : (r.difference (r.difference c)).features =
        r.features.map
          (fun f =>
            { f with geometry :=
                f.geometry \ (r.difference c).unionGeometry }) := rfl
    rw [h0]
    exact List.map_congr_left fun f hf => by rw [key f hf]
  refine ⟨hfeat, ?_⟩
  ext p
  rw [mem_unionGeometry, hfeat]
  simp only [Set.mem_inter_iff, List.mem_map]
  constructor
  · rintro ⟨f', ⟨g, hg, rfl⟩, hpf'⟩
    have hp : p ∈ g.geometry ∩ c.unionGeometry := hpf'
    exact ⟨(mem_unionGeometry r p).2 ⟨g, hg, hp.1⟩, hp.2⟩
  · rintro ⟨hpr, hpc⟩
    obtain ⟨g, hg, hpg⟩ := (mem_unionGeometry r p).1 hpr
    exact ⟨_, ⟨g, hg, rfl⟩, ⟨hpg, hpc⟩⟩

/-- Renaming the first feature does not change the collection's geometry. -/
theorem unionGeometry_setHeadName (fc : FeatureCollection Region)
    (n : String) : (fc.setHeadName n).unionGeometry = fc.unionGeometry := by
  obtain ⟨l⟩ := fc
  cases l <;> rfl

/-- Re-tagging the first feature does not change the collection's
geometry. -/
theorem unionGeometry_setHeadTags (fc : FeatureCollection Region)
    (t : String) : (fc.setHeadTags t).unionGeometry = fc.unionGeometry := by
  obtain ⟨l⟩ := fc
  cases l <;> rfl

/-- Changing the first feature's author does not change the collection's
geometry. -/
theorem unionGeometry_setHeadAuthor (fc : FeatureCollection Region)
    (a : String) : (fc.setHeadAuthor a).unionGeometry = fc.unionGeometry := by
  obtain ⟨l⟩ := fc
  cases l <;> rfl

/-- The author string hardcoded in `main` (line 119). -/
def mainAuthor : String := "Milena Veneziani"

/-- The manually specified Chukchi Sea ring (script lines 201-210). -/
def chukchiRing : List Point :=
  [(-167.15, 65.74), (-168.01, 65.84), (-168.62, 65.91), (-169.43, 66.01),
   (-170.24, 66.1), (-180, 66.6), (-180, 80.0), (-156.48, 80.0),
   (-156.65, 65.37), (-167.15, 65.74)]

/-- The manually specified Laptev Sea ring (script lines 253-258): six
coordinate pairs whose last point repeats the first. -/
def laptevRing : List Point :=
  [(145, 68), (145, 80), (95.4, 81.29), (99.89, 78.27), (102, 72),
   (145, 68)]

/-- Number of sides of the polygon a coordinate ring describes: a ring that
closes back on its first point has one side fewer than it has points. -/
def ringSides (r : List Point) : ℕ :=
  if r.head? = r.getLast? ∧ 2 ≤ r.length then r.length - 1 else r.length

/-- The Chukchi Sea feature as `main` adds it literally (lines 191-210),
with its ring interpreted as a region when it enters boolean operations. -/
def chukchiFC (ringRegion : List (List Point) → Region) :
    FeatureCollection Region :=
  ⟨[⟨"Chukchi Sea", mainAuthor, "region", "ocean",
     some "Chukchi_Sea;Arctic_NSIDC;Arctic_Basin",
     ringRegion [chukchiRing]⟩]⟩

/-- The Laptev Sea feature as `main` adds it literally (lines 243-258),
with its ring interpreted as a region when it enters boolean operations. -/
def laptevFC (ringRegion : List (List Point) → Region) :
    FeatureCollection Region :=
  ⟨[⟨"Laptev Sea", mainAuthor, "region", "ocean",
     some "Laptev_Sea;Arctic_NSIDC;Arctic_Basin",
     ringRegion [laptevRing]⟩]⟩

/-- External inputs of `main`: the geometries of the store-read features,
the external interpretation of literal GeoJSON rings as regions (shapely),
and the contour tracer's paths with the external geometry pipeline of
`get_longest_contour`. -/
structure MainParams where
  rBarentsz : Region
  rWhite : Region
  rKara : Region
  rArcticOld : Region
  rLincoln : Region
  rLaptevOld : Region
  rESSOld : Region
  rChukchiOld : Region
  rBeaufortOld : Region
  ringRegion : List (List Point) → Region
  contourPaths : List (List Point)
  contourGeom : List Point → Region

/-- New Barents Sea (script lines 133-139): Barentsz Sea merged with White
Sea, combined, then re-tagged and re-authored. -/
def fcBS_model (P : MainParams) : FeatureCollection Region :=
  ((((readRegion "Barentsz Sea" P.rBarentsz).merge
      (readRegion "White Sea" P.rWhite)).combine
      "Barents Sea").setHeadTags
      "Barents_Sea;Arctic;Arctic_NSIDC;Arctic_Basin").setHeadAuthor mainAuthor

/-- Kara Sea (script lines 143-145), re-tagged. -/
def fcKara_model (P : MainParams) : FeatureCollection Region :=
  (readRegion "Kara Sea" P.rKara).setHeadTags
    "Kara_Sea;Arctic;Arctic_NSIDC;Arctic_Basin"

/-- The running output collection after the Kara Sea merge (line 146).
Because the script sets `fc = fcBS` (line 136), `fc` and `fcBS` alias the
same object from here on. -/
def fc2_model (P : MainParams) : FeatureCollection Region :=
  (fcBS_model P).merge (fcKara_model P)

/-- The collection subtracted from the Fram-Strait rectangle (lines
157-159).  Note the aliasing: at line 159 the script merges `fcBS`, which by
then is the same object as `fc` and already contains the Kara Sea feature
too, so the model merges `fc2_model`. -/
def fcTmp_model (P : MainParams) : FeatureCollection Region :=
  ((readRegion "Arctic Ocean" P.rArcticOld).merge
    (readRegion "Lincoln Sea" P.rLincoln)).merge (fc2_model P)

/-- New Arctic Ocean (script lines 160-174): the Fram-Strait gap rectangle
differenced against `fcTmp`, merged with the old Arctic regions, combined
and re-tagged. -/
def fcArctic_model (P : MainParams) : FeatureCollection Region :=
  ((((((((((toRegionFC P.ringRegion
      (make_rectangle (-36) 20 86 79 "North of Fram Strait" mainAuthor
        "Arctic_Basin")).difference
      (fcTmp_model P)).merge
      (readRegion "Arctic Ocean" P.rArcticOld)).merge
      (readRegion "Laptev Sea" P.rLaptevOld)).merge
      (readRegion "East Siberian Sea" P.rESSOld)).merge
      (readRegion "Chukchi Sea" P.rChukchiOld)).merge
      (readRegion "Beaufort Sea" P.rBeaufortOld)).merge
      (readRegion "Lincoln Sea" P.rLincoln)).combine
      "Arctic Ocean").setHeadTags
      "Arctic_Ocean;Arctic;Arctic_Basin").setHeadAuthor mainAuthor

/-- The Beaufort Gyre rectangle before clipping (script lines 181-182). -/
def fcBGfirstTry_model (P : MainParams) : FeatureCollection Region :=
  toRegionFC P.ringRegion
    (make_rectangle (-170) (-130) (70.5) (80.5) "Beaufort Gyre" mainAuthor
      "Beaufort_Gyre;Arctic;Arctic_Basin;Proshutinski")

/-- Beaufort Gyre (script lines 183-184): the double-difference of the
rectangle against the 300 m contour collection `fcC`. -/
def fcBG_model (P : MainParams) (fcC : FeatureCollection Region) :
    FeatureCollection Region :=
  (fcBGfirstTry_model P).difference ((fcBGfirstTry_model P).difference fcC)

/-- New Chukchi Sea (script lines 191-211): the manual decagonal ring minus
the Beaufort Gyre. -/
def fcChukchi_model (P : MainParams) (fcC : FeatureCollection Region) :
    FeatureCollection Region :=
  (chukchiFC P.ringRegion).difference (fcBG_model P fcC)

/-- Beaufort Gyre Shelf (script lines 217-227): nested differences of the
shelf rectangle against the contour and the gyre, combined, then minus the
new Chukchi Sea. -/
def fcBGshelf_model (P : MainParams) (fcC : FeatureCollection Region) :
    FeatureCollection Region :=
  let firstTry := toRegionFC P.ringRegion
    (make_rectangle (-170) (-130) 68 (80.5) "Beaufort Gyre Shelf Box"
      mainAuthor "Beaufort_Gyre_Shelf;Arctic;Arctic_NSIDC;Arctic_Basin")
  let shelf1 := firstTry.difference fcC
  let secondTry := (firstTry.difference (fcBG_model P fcC)).difference shelf1
  ((((shelf1.setHeadName "Beaufort Gyre Shelf").merge secondTry).combine
      "Beaufort Gyre Shelf").difference (fcChukchi_model P fcC))

/-- New East Siberian Sea (script lines 234-236): a bare rectangle. -/
def fcESS_model (P : MainParams) : FeatureCollection Region :=
  toRegionFC P.ringRegion
    (make_rectangle 180 145 67 80 "East Siberian Sea" mainAuthor
      "East_Siberian_Sea;Arctic_NSIDC;Arctic_Basin")

/-- New Laptev Sea (script lines 243-259): the manual ring minus the Kara
Sea collection. -/
def fcLap_model (P : MainParams) : FeatureCollection Region :=
  (laptevFC P.ringRegion).difference (fcKara_model P)

/-- Central Arctic (script lines 266-274): the New Arctic Ocean differenced
in sequence against the five new regions, then renamed and re-tagged. -/
def fcCentralArctic_model (P : MainParams) (fcC : FeatureCollection Region) :
    FeatureCollection Region :=
  (((((((fcArctic_model P).difference (fcBG_model P fcC)).difference
      (fcBGshelf_model P fcC)).difference
      (fcChukchi_model P fcC)).difference
      (fcESS_model P)).difference
      (fcLap_model P)).setHeadName "Central Arctic" |>.setHeadTags
      "Central_Arctic;Arctic;Arctic_Basin").setHeadAuthor mainAuthor

/-- The final collection handed to `gf.split` (script line 281): the running
collection accumulated by the nine merges of `main`. -/
def finalFC_model (P : MainParams) (fcC : FeatureCollection Region) :
    FeatureCollection Region :=
  (((((((fc2_model P).merge (fcArctic_model P)).merge
      (fcBG_model P fcC)).merge
      (fcChukchi_model P fcC)).merge
      (fcBGshelf_model P fcC)).merge
      (fcESS_model P)).merge
      (fcLap_model P)).merge (fcCentralArctic_model P fcC)

/-- The named intermediate collections of `main` together with the final
merged collection. -/
structure MainParts where
  fc : FeatureCollection Region
  fcArctic : FeatureCollection Region
  fcBG : FeatureCollection Region
  fcBGshelf : FeatureCollection Region
  fcChukchi : FeatureCollection Region
  fcESS : FeatureCollection Region
  fcLap : FeatureCollection Region
  fcCentralArctic : FeatureCollection Region

/-- The body of `main` once `get_longest_contour` has returned the contour
collection `fcC`. -/
def buildParts (P : MainParams) (fcC : FeatureCollection Region) :
    MainParts :=
  ⟨finalFC_model P fcC, fcArctic_model P, fcBG_model P fcC,
   fcBGshelf_model P fcC, fcChukchi_model P fcC, fcESS_model P,
   fcLap_model P, fcCentralArctic_model P fcC⟩

/-- `main` from the script (lines 118-289), as a function of its external
inputs: it errors out (`none`) exactly when `get_longest_contour` does, and
otherwise produces the collections of `buildParts`. -/
def mainModel (P : MainParams) : Option MainParts :=
  (get_longest_contour Region (-300) mainAuthor P.contourPaths
    P.contourGeom).map (buildParts P)

/-- The property updates at the end of the Central Arctic construction do
not change its geometry. -/
theorem fcCentralArctic_unionGeometry (P : MainParams)
    (fcC : FeatureCollection Region) :
    (fcCentralArctic_model P fcC).unionGeometry =
      ((((((fcArctic_model P).difference (fcBG_model P fcC)).difference
        (fcBGshelf_model P fcC)).difference
        (fcChukchi_model P fcC)).difference
        (fcESS_model P)).difference (fcLap_model P)).unionGeometry := by
  unfold fcCentralArctic_model
  rw [unionGeometry_setHeadAuthor, unionGeometry_setHeadTags,
    unionGeometry_setHeadName]

/-- C2: the Central Arctic collection produced by `main` (the New Arctic
Ocean geometry differenced in sequence against Beaufort Gyre, Beaufort Gyre
Shelf, new Chukchi Sea, new East Siberian Sea and new Laptev Sea) has empty
intersection, hence zero overlap area, with each of the five subtracted
collections. -/
theorem centralArctic_disjoint (P : MainParams)
    (h : (mainModel P).isSome) :
    ((mainModel P).get h).fcCentralArctic.unionGeometry ∩
      ((mainModel P).get h).fcBG.unionGeometry = ∅ ∧
    ((mainModel P).get h).fcCentralArctic.unionGeometry ∩
      ((mainModel P).get h).fcBGshelf.unionGeometry = ∅ ∧
    ((mainModel P).get h).fcCentralArctic.unionGeometry ∩
      ((mainModel P).get h).fcChukchi.unionGeometry = ∅ ∧
    ((mainModel P).get h).fcCentralArctic.unionGeometry ∩
      ((mainModel P).get h).fcESS.unionGeometry = ∅ ∧
    ((mainModel P).get h).fcCentralArctic.unionGeometry ∩
      ((mainModel P).get h).fcLap.unionGeometry = ∅ := by
  obtain ⟨parts, hp⟩ := Option.isSome_iff_exists.1 h
  have hg : (mainModel P).get h = parts := by simp [hp]
  rw [hg]
  unfold mainModel at hp
  obtain ⟨c, hc, hbp⟩ := Option.map_eq_some'.1 hp
  subst hbp
  refine ⟨?_, ?_, ?_, ?_, ?_⟩
  · show (fcCentralArctic_model P c).unionGeometry ∩
      (fcBG_model P c).unionGeometry = ∅
    rw [fcCentralArctic_unionGeometry]
    exact inter_empty_of_subset
      (Set.Subset.trans (unionGeometry_difference_subset _ _)
        (Set.Subset.trans (unionGeometry_difference_subset _ _)
          (Set.Subset.trans (unionGeometry_difference_subset _ _)
            (unionGeometry_difference_subset _ _))))
      (unionGeometry_difference_inter _ _)
  · show (fcCentralArctic_model P c).unionGeometry ∩
      (fcBGshelf_model P c).unionGeometry = ∅
    rw [fcCentralArctic_unionGeometry]
    exact inter_empty_of_subset
      (Set.Subset.trans (unionGeometry_difference_subset _ _)
        (Set.Subset.trans (unionGeometry_difference_subset _ _)
          (unionGeometry_difference_subset _ _)))
      (unionGeometry_difference_inter _ _)
  · show (fcCentralArctic_model P c).unionGeometry ∩
      (fcChukchi_model P c).unionGeometry = ∅
    rw [fcCentralArctic_unionGeometry]
    exact inter_empty_of_subset
      (Set.Subset.trans (unionGeometry_difference_subset _ _)
        (unionGeometry_difference_subset _ _))
      (unionGeometry_difference_inter _ _)
  · show (fcCentralArctic_model P c).unionGeometry ∩
      (fcESS_model P).unionGeometry = ∅
    rw [fcCentralArctic_unionGeometry]
    exact inter_empty_of_subset (unionGeometry_difference_subset _ _)
      (unionGeometry_difference_inter _ _)
  · show (fcCentralArctic_model P c).unionGeometry ∩
      (fcLap_model P).unionGeometry = ∅
    rw [fcCentralArctic_unionGeometry]
    exact unionGeometry_difference_inter _ _

/-- Concrete external inputs on which the modelled `main` completes: empty
store regions, the empty-region ring interpretation, and a single one-vertex
contour path. -/
def exampleParams : MainParams :=
  { rBarentsz := ∅, rWhite := ∅, rKara := ∅, rArcticOld := ∅, rLincoln := ∅,
    rLaptevOld := ∅, rESSOld := ∅, rChukchiOld := ∅, rBeaufortOld := ∅,
    ringRegion := fun _ => ∅, contourPaths := [[(0, 0)]],
    contourGeom := fun _ => ∅ }

/-- Witness for C2 at the concrete inputs `exampleParams`. -/
theorem centralArctic_disjoint_witness :
    ((mainModel exampleParams).get (by rfl)).fcCentralArctic.unionGeometry ∩
      ((mainModel exampleParams).get (by rfl)).fcBG.unionGeometry = ∅ ∧
    ((mainModel exampleParams).get (by rfl)).fcCentralArctic.unionGeometry ∩
      ((mainModel exampleParams).get (by rfl)).fcBGshelf.unionGeometry = ∅ ∧
    ((mainModel exampleParams).get (by rfl)).fcCentralArctic.unionGeometry ∩
      ((mainModel exampleParams).get (by rfl)).fcChukchi.unionGeometry = ∅ ∧
    ((mainModel exampleParams).get (by rfl)).fcCentralArctic.unionGeometry ∩
      ((mainModel exampleParams).get (by rfl)).fcESS.unionGeometry = ∅ ∧
    ((mainModel exampleParams).get (by rfl)).fcCentralArctic.unionGeometry ∩
      ((mainModel exampleParams).get (by rfl)).fcLap.unionGeometry = ∅ :=
  centralArctic_disjoint exampleParams (by rfl)

/-- C7: the final merged collection passed to the store's split holds
exactly the nine regions in the claimed order, with pairwise distinct
feature names, and the `Contour -300.0` feature is not among them. -/
theorem final_names (P : MainParams) (h : (mainModel P).isSome) :
    ((mainModel P).get h).fc.features.map Feature.name =
      ["Barents Sea", "Kara Sea", "Arctic Ocean", "Beaufort Gyre",
       "Chukchi Sea", "Beaufort Gyre Shelf", "East Siberian Sea",
       "Laptev Sea", "Central Arctic"] ∧
    (((mainModel P).get h).fc.features.map Feature.name).Pairwise
      (fun a b => a ≠ b) ∧
    "Contour -300.0" ∉ ((mainModel P).get h).fc.features.map Feature.name := by
  obtain ⟨parts, hp⟩ := Option.isSome_iff_exists.1 h
  have hg : (mainModel P).get h = parts := by simp [hp]
  rw [hg]
  unfold mainModel at hp
  obtain ⟨c, hc, hbp⟩ := Option.map_eq_some'.1 hp
  subst hbp
  have hnames : (buildParts P c).fc.features.map Feature.name =
      ["Barents Sea", "Kara Sea", "Arctic Ocean", "Beaufort Gyre",
       "Chukchi Sea", "Beaufort Gyre Shelf", "East Siberian Sea",
       "Laptev Sea", "Central Arctic"] := rfl
  refine ⟨hnames, ?_, ?_⟩
  · rw [hnames]
    decide
  · rw [hnames]
    decide

/-- Witness for C7 at the concrete inputs `exampleParams`. -/
theorem final_names_witness :
    ((mainModel exampleParams).get (by rfl)).fc.features.map Feature.name =
      ["Barents Sea", "Kara Sea", "Arctic Ocean", "Beaufort Gyre",
       "Chukchi Sea", "Beaufort Gyre Shelf", "East Siberian Sea",
       "Laptev Sea", "Central Arctic"] ∧
    "Contour -300.0" ∉
      ((mainModel exampleParams).get (by rfl)).fc.features.map Feature.name :=
  ⟨(final_names exampleParams (by rfl)).1,
   (final_names exampleParams (by rfl)).2.2⟩

/-- `epsilon` from `get_longest_contour` (script line 68). -/
def epsilon : ℚ := 1e-14

/-- The wedge polygon ring (script lines 70-75): a sliver anchored near the
stereographic origin (the pole) whose two top vertices sit at the chosen
path's maximum y. -/
def wedgeRing (maxY : ℚ) : List Point :=
  [(epsilon, maxY), (epsilon ^ 2, epsilon), (0, epsilon),
   (-epsilon ^ 2, epsilon), (-epsilon, maxY), (epsilon, maxY)]

/-- Modelled from the spec: the wedge-removal step `poly.difference(wedge)`
(script line 77) in set semantics, removing exactly the wedge's points. -/
def wedgeRemoval (poly wedge : Region) : Region := poly \ wedge

/-- Counterexample to C6: already at a modest contour extent `maxY = 1000`
(the real stereographic grid extends to millions of meters), the wedge's
first vertex `(epsilon, maxY)` is a wedge vertex whose squared distance from
the singular point exceeds 1, which is no machine-epsilon scale distance; so
not every wedge vertex lies at epsilon-scale distance from the pole. -/
theorem wedge_vertex_far_from_pole :
    (epsilon, (1000 : ℚ)) ∈ wedgeRing 1000 ∧
    ¬ (epsilon ^ 2 + (1000 : ℚ) ^ 2 ≤ 1) := by
  constructor
  · simp [wedgeRing]
  · norm_num [epsilon]

/-- C6 amended: every wedge vertex has x-coordinate of magnitude at most
`epsilon`; each vertex sits either at the contour's maximum y (the two top
vertices) or on the epsilon-height base, where its squared distance from the
singular point is at most `2 * epsilon ^ 2`; and the wedge removal, in set
semantics, removes only points of the wedge: a polygon point outside the
wedge is retained, and the result stays inside the polygon. -/
theorem wedge_amended (maxY : ℚ) (poly wedge : Region) (p : Point)
    (hp : p ∈ poly) (hw : p ∉ wedge) :
    (∀ v ∈ wedgeRing maxY, |v.1| ≤ epsilon) ∧
    (∀ v ∈ wedgeRing maxY,
      v.2 = maxY ∨ (v.2 = epsilon ∧ v.1 ^ 2 + v.2 ^ 2 ≤ 2 * epsilon ^ 2)) ∧
    p ∈ wedgeRemoval poly wedge ∧ wedgeRemoval poly wedge ⊆ poly := by
  refine ⟨?_, ?_, ⟨hp, hw⟩, fun q hq => hq.1⟩
  · intro v hv
    simp only [wedgeRing, List.mem_cons, List.not_mem_nil, or_false] at hv
    rcases hv with rfl | rfl | rfl | rfl | rfl | rfl <;>
      norm_num [epsilon, abs_le]
  · intro v hv
    simp only [wedgeRing, List.mem_cons, List.not_mem_nil, or_false] at hv
    rcases hv with rfl | rfl | rfl | rfl | rfl | rfl
    · exact Or.inl rfl
    · exact Or.inr ⟨rfl, by norm_num [epsilon]⟩
    · exact Or.inr ⟨rfl, by norm_num [epsilon]⟩
    · exact Or.inr ⟨rfl, by norm_num [epsilon]⟩
    · exact Or.inl rfl
    · exact Or.inl rfl

/-- Witness for the amended C6 at concrete sets and a concrete point. -/
theorem wedge_amended_witness :
    ((0 : ℚ), (0 : ℚ)) ∈ (Set.univ : Region) ∧
    ((0 : ℚ), (0 : ℚ)) ∉ (∅ : Region) ∧
    ((0 : ℚ), (0 : ℚ)) ∈ wedgeRemoval Set.univ ∅ :=
  ⟨trivial, Set.not_mem_empty _,
   (wedge_amended 5 Set.univ ∅ (0, 0) trivial
     (Set.not_mem_empty _)).2.2.1⟩

/-- Counterexample to C8: the manually specified Laptev ring consists of six
coordinate pairs whose last point repeats the first, so the polygon it
bounds has five sides, not six: it is a pentagon, not a hexagon. -/
theorem laptev_ring_not_hexagon :
    laptevRing.length = 6 ∧ laptevRing.head? = laptevRing.getLast? ∧
    ringSides laptevRing = 5 ∧ ringSides laptevRing ≠ 6 := by
  exact ⟨rfl, by decide, by decide, by decide⟩

/-- C8 amended: the new Laptev Sea feature is built from the manually
specified five-sided polygon (a closed ring of six coordinate pairs whose
last repeats the first) whose geometry is then differenced against the Kara
Sea collection, keeping the Laptev feature's name and properties. -/
theorem laptev_construction (P : MainParams) :
    (fcLap_model P).features.map
        (fun f => (f.name, f.author, f.object, f.component, f.tags)) =
      [("Laptev Sea", mainAuthor, "region", "ocean",
        some "Laptev_Sea;Arctic_NSIDC;Arctic_Basin")] ∧
    (fcLap_model P).features.map Feature.geometry =
      [P.ringRegion [laptevRing] \ (fcKara_model P).unionGeometry] ∧
    laptevRing.length = 6 ∧ laptevRing.head? = laptevRing.getLast? ∧
    ringSides laptevRing = 5 := by
  exact ⟨rfl, rfl, rfl, by decide, by decide⟩

/-- `numpy.amin` over the values of a coordinate array. -/
def amin (l : List ℚ) : ℚ :=
  match l with
  | [] => 0
  | a :: t => t.foldl min a

/-- `numpy.amax` over the values of a coordinate array. -/
def amax (l : List ℚ) : ℚ :=
  match l with
  | [] => 0
  | a :: t => t.foldl max a

/-- The script's boundary zeroing (lines 45-46) as `numpy` executes it: the
1-D boolean mask `(x==amin(x))|(x==amax(x))|(y==amin(y))|(y==amax(y))`
indexes the first axis of the 2-D array `z`, so `z[mask] = 0` zeroes the
entire rows of `z` at the mask's true positions. -/
def zeroBoundary (x y : List ℚ) (z : List (List ℚ)) : List (List ℚ) :=
  List.zipWith
    (fun i row =>
      if x.getD i 0 = amin x ∨ x.getD i 0 = amax x ∨
         y.getD i 0 = amin y ∨ y.getD i 0 = amax y
      then row.map fun _ => (0 : ℚ) else row)
    (List.range z.length) z

/-- Modelled from the spec: zero out the depth values along the four grid
edges, i.e. zero `z[i][j]` whenever the sample's x-coordinate `x[j]` is the
grid's minimum or maximum x, or its y-coordinate `y[i]` is the grid's
minimum or maximum y, and leave all interior samples unchanged. -/
def zeroBoundarySpec (x y : List ℚ) (z : List (List ℚ)) : List (List ℚ) :=
  List.zipWith
    (fun i row =>
      List.zipWith
        (fun j v =>
          if x.getD j 0 = amin x ∨ x.getD j 0 = amax x ∨
             y.getD i 0 = amin y ∨ y.getD i 0 = amax y
          then (0 : ℚ) else v)
        (List.range row.length) row)
    (List.range z.length) z

/-- C9 (code bug): on a 3-by-3 grid of ones with coordinates `x = y =
[0, 1, 2]`, the script's boundary zeroing leaves the sample at row 1,
column 0 equal to 1 even though its x-coordinate equals the grid's minimum
x, because the 1-D mask indexes rows of `z`; the claimed behavior zeroes
every sample on the four grid edges, including that one. -/
theorem zeroBoundary_rows_only :
    zeroBoundary [0, 1, 2] [0, 1, 2] [[1, 1, 1], [1, 1, 1], [1, 1, 1]] =
      [[0, 0, 0], [1, 1, 1], [0, 0, 0]] ∧
    zeroBoundarySpec [0, 1, 2] [0, 1, 2] [[1, 1, 1], [1, 1, 1], [1, 1, 1]] =
      [[0, 0, 0], [0, 1, 0], [0, 0, 0]] ∧
    ((zeroBoundary [0, 1, 2] [0, 1, 2]
        [[1, 1, 1], [1, 1, 1], [1, 1, 1]]).getD 1 []).getD 0 0 = 1 ∧
    ((zeroBoundarySpec [0, 1, 2] [0, 1, 2]
        [[1, 1, 1], [1, 1, 1], [1, 1, 1]]).getD 1 []).getD 0 0 = 0 := by
  exact ⟨by decide, by decide, by decide, by decide⟩
